import Mathlib

/-!
Verification development for the `pdfreactor-utils` DOM helper library
(`src/index.js`).  The library exposes three independent, synchronous
functions operating on a live document tree:

* `renderToc( targetElementSelector, headingSelector = 'h1, h2' )`
* `renderPdf( parentSelector, src )`
* `renderOffscreen( selector, renderFunction )`

The shallow embedding below models the document fragments each function
touches: headings are records of the attributes the code reads and writes,
a container's content is a string (for `renderToc`, which works through
`innerHTML`) or a list of nodes (for `renderPdf` and `renderOffscreen`,
which work through child-node insertion and removal).  Host DOM operations
(`querySelectorAll` with the default selector, `removeChild`,
`insertBefore`, `lastChild`) are modelled explicitly next to the functions
that use them.
-/

set_option autoImplicit false

namespace PdfReactorUtils

/-! ### TocRenderer: data model

A heading element, as seen by `renderToc`: the code reads `nodeName`,
`id` (the DOM property, which is the empty string when the attribute is
absent or empty), `textContent`, `innerHTML`, and
`getAttribute('data-toc-ignore')` (`none` models a `null` result, i.e. the
attribute is absent; `some v` models a present attribute with value `v`,
possibly the empty string). -/
structure Heading where
  nodeName : String
  id : String
  textContent : String
  innerHTML : String
  tocIgnore : Option String
deriving DecidableEq, Repr

/-- JavaScript `String#toLowerCase`, for the ASCII node names the code
feeds it (`H1`, `H2`, …): lowercase every character. -/
def toLowerCase (s : String) : String :=
  ⟨s.data.map Char.toLower⟩

/-- JavaScript `String#trim`: strip leading and trailing whitespace. -/
def jsTrim (s : String) : String :=
  ⟨(((s.data.dropWhile Char.isWhitespace).reverse).dropWhile Char.isWhitespace).reverse⟩

/-- A word character in the sense of the JavaScript regex class `\w`,
namely `[A-Za-z0-9_]`. -/
def isWordChar (c : Char) : Bool :=
  c.isAlphanum || c == '_'

/-- Character-list core of `replace( /\W+/g, '-' )`: every maximal run of
non-word characters is replaced by a single `'-'`.  The boolean flag
records whether the previous character belonged to such a run. -/
def collapseNonWord : Bool → List Char → List Char
  | _, [] => []
  | inRun, c :: rest =>
    if isWordChar c then c :: collapseNonWord false rest
    else if inRun then collapseNonWord true rest
    else '-' :: collapseNonWord true rest

/-- `s.replace( /\W+/g, '-' )` from `renderToc`. -/
def hyphenate (s : String) : String :=
  ⟨collapseNonWord false s.data⟩

/-- The id derived in `renderToc` for a heading without one:
`heading.textContent.trim().replace( /\W+/g, '-' ) + index`, where
`index` is the heading's zero-based index in the filtered list. -/
def deriveId (text : String) (index : Nat) : String :=
  hyphenate (jsTrim text) ++ Nat.repr index

/-- `heading.id = heading.id ? heading.id : deriveId …` — the JavaScript
condition is string truthiness, so the empty string counts as absent. -/
def assignId (h : Heading) (index : Nat) : Heading :=
  { h with id := if h.id = "" then deriveId h.textContent index else h.id }

/-- The template-literal fragment appended per heading (whitespace exactly
as in the source template literal):

a `li` with class `level-` + lowercased node name, containing one `a`
whose `href` is `#` + the heading's id and whose content is the heading's
`innerHTML`, copied verbatim. -/
def tocEntry (h : Heading) : String :=
  "\n            <li class=\"level-" ++ toLowerCase h.nodeName ++
    "\">\n               <a href=\"#" ++ h.id ++ "\">" ++ h.innerHTML ++
    "</a>\n            </li>"

/-- The filter predicate `_ => _.getAttribute( 'data-toc-ignore' ) == null`:
a heading is kept exactly when the attribute is absent. -/
def notIgnored (h : Heading) : Bool :=
  h.tocIgnore.isNone

/-- The `reduce` over the filtered headings: the accumulator starts from
the target's current `innerHTML` and each step appends one `tocEntry` for
the heading with its id already assigned (the source mutates `heading.id`
before reading it in the template). -/
def tocFold : List Heading → Nat → String → String
  | [], _, acc => acc
  | h :: rest, index, acc => tocFold rest (index + 1) (acc ++ tocEntry (assignId h index))

/-- `renderToc`, at the level of the target container's `innerHTML`:
`headings` is the document-order list returned by
`document.querySelectorAll( headingSelector )`, `tocInit` the target
element's `innerHTML` before the call; the result is the target's
`innerHTML` after the call. -/
def renderToc (headings : List Heading) (tocInit : String) : String :=
  tocFold (headings.filter notIgnored) 0 tocInit

/-- `renderToc`, at the level of the heading elements themselves: the
in-place `heading.id` mutation, applied across the original
(unfiltered, document-order) list.  Ignored headings are skipped and do
not advance the filtered index. -/
def updateIds : List Heading → Nat → List Heading
  | [], _ => []
  | h :: rest, index =>
    if notIgnored h then assignId h index :: updateIds rest (index + 1)
    else h :: updateIds rest index

/-- `document.querySelectorAll( 'h1, h2' )` for the default heading
selector: the document-order elements whose node name is `H1` or `H2`. -/
def queryDefaultHeadings (doc : List Heading) : List Heading :=
  doc.filter fun h => h.nodeName == "H1" || h.nodeName == "H2"

/-- Number of non-ignored headings in a list (the number of filtered index
slots the list consumes). -/
def filteredCount (l : List Heading) : Nat :=
  (l.filter notIgnored).length

/-! ### TocRenderer: spec-side entry shape (refinement side)

These definitions follow the specification's words — "item carries class
`level-<lowercased tag name>`; contains a single link whose target
fragment is the element's identifier and whose inner markup is copied
verbatim from the heading's inner markup" — and are compared against the
`renderToc` embedding above. -/

/-- Spec-side shape of one TOC entry for a heading with lowercased tag
`tag`, identifier `idv` and inner markup `inner`. -/
def entrySpec (tag idv inner : String) : String :=
  "\n            <li class=\"level-" ++ tag ++
    "\">\n               <a href=\"#" ++ idv ++ "\">" ++ inner ++
    "</a>\n            </li>"

/-- Spec-side list of entries for an (already filtered) heading list,
starting at filtered index `i`: one entry per heading, in order, with the
identifier the spec prescribes (kept when present, derived otherwise). -/
def specEntriesFrom : List Heading → Nat → List String
  | [], _ => []
  | h :: rest, i =>
    entrySpec (toLowerCase h.nodeName)
        (if h.id = "" then deriveId h.textContent i else h.id) h.innerHTML ::
      specEntriesFrom rest (i + 1)

/-- Spec-side list of all entries produced for a heading list: filter out
ignored headings, then one entry per remaining heading in document order. -/
def specEntries (headings : List Heading) : List String :=
  specEntriesFrom (headings.filter notIgnored) 0

/-- Concatenation of a list of markup fragments, in order. -/
def concatAll : List String → String
  | [] => ""
  | s :: rest => s ++ concatAll rest

/-! ### TocRenderer: lemmas -/

/-- Appending one code-side entry for a heading with its id assigned
produces exactly the spec-side entry shape. -/
theorem tocEntry_assignId (h : Heading) (i : Nat) :
    tocEntry (assignId h i) =
      entrySpec (toLowerCase h.nodeName)
        (if h.id = "" then deriveId h.textContent i else h.id) h.innerHTML := rfl

/-- The `reduce` over a filtered heading list equals the initial
accumulator followed by the concatenation of the spec-side entries. -/
theorem tocFold_eq (l : List Heading) :
    ∀ (i : Nat) (acc : String),
      tocFold l i acc = acc ++ concatAll (specEntriesFrom l i) := by
  induction l with
  | nil =>
    intro i acc
    simp [tocFold, specEntriesFrom, concatAll, String.append_empty]
  | cons h rest ih =>
    intro i acc
    rw [tocFold, ih, specEntriesFrom, concatAll, tocEntry_assignId,
      String.append_assoc]

/-- `renderToc` appends the concatenated spec-side entries after the
container's initial content. -/
theorem renderToc_eq (headings : List Heading) (tocInit : String) :
    renderToc headings tocInit = tocInit ++ concatAll (specEntries headings) :=
  tocFold_eq (headings.filter notIgnored) 0 tocInit

/-- One spec-side entry is produced per heading of the filtered list. -/
theorem specEntriesFrom_length (l : List Heading) :
    ∀ i : Nat, (specEntriesFrom l i).length = l.length := by
  induction l with
  | nil => intro i; rfl
  | cons h rest ih => intro i; simp [specEntriesFrom, ih]

/-- Element-wise description of the id-assignment pass: the heading at
position `k` is left alone when ignored, and otherwise gets its id
assigned at the filtered index counted over the prefix before it. -/
theorem updateIds_getElem? (l : List Heading) :
    ∀ (i k : Nat),
      (updateIds l i)[k]? = (l[k]?).map fun h =>
        if notIgnored h then assignId h (i + filteredCount (l.take k)) else h := by
  induction l with
  | nil => intro i k; simp [updateIds]
  | cons h rest ih =>
    intro i k
    cases k with
    | zero =>
      by_cases hni : notIgnored h <;>
        simp [updateIds, hni, filteredCount]
    | succ k =>
      by_cases hni : notIgnored h
      · have hc : filteredCount ((h :: rest).take (k + 1)) =
            filteredCount (rest.take k) + 1 := by
          simp [filteredCount, List.take_succ_cons, List.filter, hni]
        have hi : i + (filteredCount (rest.take k) + 1) =
            (i + 1) + filteredCount (rest.take k) := by omega
        simp only [updateIds, hni, if_true, List.getElem?_cons_succ, ih, hc, hi]
      · have hc : filteredCount ((h :: rest).take (k + 1)) =
            filteredCount (rest.take k) := by
          simp [filteredCount, List.take_succ_cons, List.filter, hni]
        simp only [updateIds, hni, Bool.false_eq_true, if_false,
          List.getElem?_cons_succ, ih, hc]

/-- The id-assignment pass does not add or remove headings. -/
theorem updateIds_length (l : List Heading) :
    ∀ i : Nat, (updateIds l i).length = l.length := by
  induction l with
  | nil => intro i; rfl
  | cons h rest ih =>
    intro i
    by_cases hni : notIgnored h <;> simp [updateIds, hni, ih]

/-- A heading that keeps its id keeps all its fields: `assignId` is the
identity on headings with a non-empty id. -/
theorem assignId_of_ne (h : Heading) (i : Nat) (hid : h.id ≠ "") :
    assignId h i = h := by
  simp [assignId, hid]

/-- Removing an element that the filter rejects does not change the
filtered list. -/
theorem filter_eraseIdx_of_not (p : Heading → Bool) (l : List Heading) :
    ∀ (k : Nat) (h : Heading), l[k]? = some h → p h = false →
      (l.eraseIdx k).filter p = l.filter p := by
  induction l with
  | nil => intro k h hk; simp at hk
  | cons x rest ih =>
    intro k h hk hp
    cases k with
    | zero =>
      simp only [List.getElem?_cons_zero, Option.some.injEq] at hk
      subst hk
      simp [List.eraseIdx, List.filter, hp]
    | succ k =>
      simp only [List.getElem?_cons_succ] at hk
      simp [List.eraseIdx, List.filter, ih k h hk hp]

/-! ### Concrete sample headings (the documents of the repository's test
suite), used to instantiate the theorems below. -/

def sampleH1 : Heading := ⟨"H1", "", "1 Headline", "1 Headline", none⟩

def sampleH2 : Heading := ⟨"H2", "", "1.1 Headline", "1.1 Headline", none⟩

def sampleH3 : Heading := ⟨"H3", "", "1.1.1 Headline", "1.1.1 Headline", none⟩

def sampleH2Id : Heading := ⟨"H2", "i-have-an-id", "1.2 Headline", "1.2 Headline", none⟩

def sampleH1b : Heading := ⟨"H1", "", "2 Headline", "2 Headline", none⟩

def sampleIgnored : Heading := ⟨"H2", "", "1.1 Headline", "1.1 Headline", some ""⟩

def sampleDoc : List Heading := [sampleH1, sampleH2, sampleH3, sampleH2Id, sampleH1b]

/-! ### TocRenderer: claim theorems -/

/-- **C3**: with the default heading selector, `renderToc` produces the
container's previous content followed by exactly one entry per
non-ignored `h1`/`h2` heading, in document order; `h3` headings are never
selected; each entry has the spec-side shape `entrySpec` — a list item of
class `level-` + lowercased tag containing a single link to the heading's
identifier whose inner markup is the heading's `innerHTML` verbatim. -/
theorem renderToc_default_entries (doc : List Heading) (tocInit : String) :
    renderToc (queryDefaultHeadings doc) tocInit =
      tocInit ++ concatAll (specEntries (queryDefaultHeadings doc))
    ∧ (specEntries (queryDefaultHeadings doc)).length =
        ((queryDefaultHeadings doc).filter notIgnored).length
    ∧ ∀ h : Heading, h.nodeName = "H3" → h ∉ queryDefaultHeadings doc := by
  refine ⟨renderToc_eq _ _, specEntriesFrom_length _ 0, ?_⟩
  intro h h3 hmem
  have hcond := (List.mem_filter.mp hmem).2
  rw [h3] at hcond
  exact absurd hcond (by decide)

/-- Witness for C3 at the test document, with pre-existing container
content. -/
theorem renderToc_default_entries_witness :
    (renderToc (queryDefaultHeadings sampleDoc) "<li>pre</li>" =
        "<li>pre</li>" ++ concatAll (specEntries (queryDefaultHeadings sampleDoc))
      ∧ (specEntries (queryDefaultHeadings sampleDoc)).length =
          ((queryDefaultHeadings sampleDoc).filter notIgnored).length
      ∧ ∀ h : Heading, h.nodeName = "H3" → h ∉ queryDefaultHeadings sampleDoc)
    ∧ (specEntries (queryDefaultHeadings sampleDoc)).length = 4 :=
  ⟨renderToc_default_entries sampleDoc "<li>pre</li>", by decide⟩

/-- **C4**: a non-ignored heading at document position `k` ends with its
id assigned at the zero-based index it occupies in the filtered sequence
(`filteredCount (l.take k)`): when it had no id, that id is the trimmed
text content with each maximal non-word run replaced by one hyphen,
followed by the filtered index; when it already had one it is left
entirely unchanged, still at its position. -/
theorem renderToc_id_assignment (l : List Heading) (k : Nat) (h : Heading)
    (hk : l[k]? = some h) (hni : notIgnored h = true) :
    (updateIds l 0)[k]? = some (assignId h (filteredCount (l.take k)))
    ∧ (h.id = "" →
        ((updateIds l 0)[k]?).map Heading.id =
          some (hyphenate (jsTrim h.textContent) ++
            Nat.repr (filteredCount (l.take k))))
    ∧ (h.id ≠ "" → (updateIds l 0)[k]? = some h) := by
  have hbase := updateIds_getElem? l 0 k
  rw [hk] at hbase
  simp only [Option.map_some', hni, if_true, Nat.zero_add] at hbase
  refine ⟨hbase, ?_, ?_⟩
  · intro hid
    rw [hbase]
    simp [assignId, hid, deriveId]
  · intro hid
    rw [hbase, assignId_of_ne h _ hid]

/-- Witness for C4 at the first test heading: text `1 Headline`, filtered
index 0, derived id `1-Headline0`. -/
theorem renderToc_id_assignment_witness :
    ([sampleH1, sampleH2, sampleH2Id, sampleH1b])[0]? = some sampleH1
    ∧ notIgnored sampleH1 = true
    ∧ ((updateIds [sampleH1, sampleH2, sampleH2Id, sampleH1b] 0)[0]? =
          some (assignId sampleH1
            (filteredCount ([sampleH1, sampleH2, sampleH2Id, sampleH1b].take 0)))
        ∧ (sampleH1.id = "" →
            ((updateIds [sampleH1, sampleH2, sampleH2Id, sampleH1b] 0)[0]?).map Heading.id =
              some (hyphenate (jsTrim sampleH1.textContent) ++
                Nat.repr (filteredCount ([sampleH1, sampleH2, sampleH2Id, sampleH1b].take 0))))
        ∧ (sampleH1.id ≠ "" →
            (updateIds [sampleH1, sampleH2, sampleH2Id, sampleH1b] 0)[0]? = some sampleH1))
    ∧ deriveId "1 Headline" 0 = "1-Headline0" :=
  ⟨by decide, by decide,
    renderToc_id_assignment [sampleH1, sampleH2, sampleH2Id, sampleH1b] 0 sampleH1
      (by decide) (by decide), by decide⟩

/-- **C5**: a heading carrying `data-toc-ignore` — with any value `v`,
the empty string included — is left completely unchanged by `renderToc`
(no id assigned), produces no entry, and consumes no filtered index slot:
the rendered output is the same as for the document with that heading
removed. -/
theorem renderToc_ignored_heading (l : List Heading) (k : Nat) (h : Heading)
    (v : String) (hk : l[k]? = some h) (hig : h.tocIgnore = some v) :
    (updateIds l 0)[k]? = some h
    ∧ ∀ tocInit : String, renderToc l tocInit = renderToc (l.eraseIdx k) tocInit := by
  have hni : notIgnored h = false := by simp [notIgnored, hig]
  constructor
  · have hbase := updateIds_getElem? l 0 k
    rw [hk] at hbase
    simpa [hni] using hbase
  · intro tocInit
    simp only [renderToc, filter_eraseIdx_of_not notIgnored l k h hk hni]

/-- Witness for C5: an ignored heading (attribute value the empty string)
between two kept headings. -/
theorem renderToc_ignored_heading_witness :
    ([sampleH1, sampleIgnored, sampleH1b])[1]? = some sampleIgnored
    ∧ sampleIgnored.tocIgnore = some ""
    ∧ ((updateIds [sampleH1, sampleIgnored, sampleH1b] 0)[1]? = some sampleIgnored
        ∧ ∀ tocInit : String,
            renderToc [sampleH1, sampleIgnored, sampleH1b] tocInit =
              renderToc ([sampleH1, sampleIgnored, sampleH1b].eraseIdx 1) tocInit) :=
  ⟨by decide, by decide,
    renderToc_ignored_heading [sampleH1, sampleIgnored, sampleH1b] 1 sampleIgnored ""
      (by decide) (by decide)⟩

/-- **C8**: `renderToc` appends after pre-existing container content: the
container's content after the call is its previous content followed by
exactly the markup generated from an empty start. -/
theorem renderToc_appends_after_existing (headings : List Heading) (tocInit : String) :
    renderToc headings tocInit = tocInit ++ renderToc headings "" := by
  rw [renderToc_eq, renderToc_eq, String.empty_append]

/-- Witness for C8 at the test document with concrete prior content. -/
theorem renderToc_appends_after_existing_witness :
    renderToc sampleDoc "<li>pre</li>" = "<li>pre</li>" ++ renderToc sampleDoc "" :=
  renderToc_appends_after_existing sampleDoc "<li>pre</li>"

/-- **C10**: a heading whose id is the empty string (the DOM `id`
property is `""` both when the attribute is absent and when it is present
but empty, and the source tests string truthiness) gets a freshly derived
identifier rather than keeping the empty one. -/
theorem renderToc_empty_id_fresh (l : List Heading) (k : Nat) (h : Heading)
    (hk : l[k]? = some h) (hni : notIgnored h = true) (hid : h.id = "") :
    (updateIds l 0)[k]? =
      some { h with id := deriveId h.textContent (filteredCount (l.take k)) } := by
  have hbase := updateIds_getElem? l 0 k
  rw [hk] at hbase
  simp only [Option.map_some', hni, if_true, Nat.zero_add] at hbase
  rw [hbase]
  simp [assignId, hid]

/-- Witness for C10: a heading with an empty id at filtered index 1. -/
theorem renderToc_empty_id_fresh_witness :
    ([sampleH2Id, sampleH2])[1]? = some sampleH2
    ∧ notIgnored sampleH2 = true
    ∧ sampleH2.id = ""
    ∧ (updateIds [sampleH2Id, sampleH2] 0)[1]? =
        some { sampleH2 with
          id := deriveId sampleH2.textContent
            (filteredCount ([sampleH2Id, sampleH2].take 1)) } :=
  ⟨by decide, by decide, by decide,
    renderToc_empty_id_fresh [sampleH2Id, sampleH2] 1 sampleH2
      (by decide) (by decide) (by decide)⟩

/-! ### PdfPageExpander: data model

`renderPdf( parentSelector, src )` appends, per page, the markup
`<img src="${src}" style="-ro-source-page: ${page}" class="embedded-pdf page-${page}" />`.
A generated image element is modelled by the three attributes that
template sets: the source URL, the value of the `-ro-source-page` style
property, and the class attribute.  The proprietary `roPageCount`
property the rendering engine exposes on rendered image elements is
modelled by a capability function `cap : PdfImg → Option Nat` (`none`
models an absent property, i.e. `undefined`). -/

structure PdfImg where
  src : String
  sourcePage : String
  className : String
deriving DecidableEq, Repr

/-- The template: page `page` yields an image with the same `src`, style
`-ro-source-page` set to the decimal page number, and class
`embedded-pdf page-` + page number. -/
def pdfTemplate (src : String) (page : Nat) : PdfImg :=
  { src := src
    sourcePage := Nat.repr page
    className := "embedded-pdf page-" ++ Nat.repr page }

/-- A child node of the target container: a generated image, or any
pre-existing content. -/
inductive DomNode : Type where
  | img : PdfImg → DomNode
  | other : String → DomNode
deriving DecidableEq, Repr

/-- `node.roPageCount` — reading the page-count capability off a child
node (`parent.lastChild` in the source): `undefined` on a missing node
and on nodes that are not rendered images. -/
def nodePageCount (cap : PdfImg → Option Nat) : Option DomNode → Option Nat
  | some (DomNode.img i) => cap i
  | _ => none

/-- `renderPdf`, at the level of the container's child list: append the
page-1 image, read `roPageCount` from `parent.lastChild`, then append one
image per page `2..numberOfPages` in ascending order (`for( let page = 2;
page <= numberOfPages; ++page )`; a loop bound that is absent runs zero
iterations, as the JavaScript comparison with `undefined` is false). -/
def renderPdf (cap : PdfImg → Option Nat) (pre : List DomNode) (src : String) :
    List DomNode :=
  let content1 := pre ++ [DomNode.img (pdfTemplate src 1)]
  match nodePageCount cap content1.getLast? with
  | none => content1
  | some n =>
    content1 ++ (List.range' 2 (n - 1)).map fun p => DomNode.img (pdfTemplate src p)

/-- The nodes `renderPdf` appends, separated from the pre-existing
content. -/
def pdfAppended (cap : PdfImg → Option Nat) (src : String) : List DomNode :=
  match cap (pdfTemplate src 1) with
  | none => [DomNode.img (pdfTemplate src 1)]
  | some n =>
    DomNode.img (pdfTemplate src 1) ::
      (List.range' 2 (n - 1)).map fun p => DomNode.img (pdfTemplate src p)

/-! ### PdfPageExpander: lemmas -/

/-- `renderPdf` is purely additive: the previous children stay, the
generated images follow; in particular `parent.lastChild` at the point
the page count is read is the freshly appended page-1 image, so the count
used is `cap` applied to that first generated element. -/
theorem renderPdf_eq_append (cap : PdfImg → Option Nat) (pre : List DomNode)
    (src : String) :
    renderPdf cap pre src = pre ++ pdfAppended cap src := by
  unfold renderPdf pdfAppended
  simp only [List.getLast?_concat]
  cases hc : cap (pdfTemplate src 1) <;> simp [nodePageCount, hc]

/-- For a positive page count, the appended images are exactly the pages
`1..n` in ascending order. -/
theorem pdfAppended_of_count (cap : PdfImg → Option Nat) (src : String) (n : Nat)
    (hn : 1 ≤ n) (hcap : cap (pdfTemplate src 1) = some n) :
    pdfAppended cap src =
      (List.range' 1 n).map fun p => DomNode.img (pdfTemplate src p) := by
  have hr : List.range' 1 n = 1 :: List.range' 2 (n - 1) := by
    cases n with
    | zero => omega
    | succ m => simpa using List.range'_succ 1 m 1
  rw [pdfAppended, hcap, hr]
  simp

/-! ### PdfPageExpander: claim theorems -/

/-- **C6**: when the page-count capability of the first generated element
(read after it is appended, hence the capability hypothesis is stated on
the page-1 image) reports `n ≥ 2`, `renderPdf` appends exactly `n` images
after the pre-existing content, in strictly ascending page order
`1..n`, each referencing the same source URL, with `-ro-source-page`
value and page class matching its page number. -/
theorem renderPdf_pages (cap : PdfImg → Option Nat) (pre : List DomNode)
    (src : String) (n : Nat) (hn : 2 ≤ n)
    (hcap : cap (pdfTemplate src 1) = some n) :
    renderPdf cap pre src =
      pre ++ (List.range' 1 n).map (fun p => DomNode.img (pdfTemplate src p))
    ∧ ((List.range' 1 n).map (fun p => DomNode.img (pdfTemplate src p))).length = n
    ∧ ∀ j : Nat, j < n →
        ((List.range' 1 n).map (fun p => DomNode.img (pdfTemplate src p)))[j]? =
          some (DomNode.img
            { src := src, sourcePage := Nat.repr (1 + j),
              className := "embedded-pdf page-" ++ Nat.repr (1 + j) }) := by
  refine ⟨?_, by simp, ?_⟩
  · rw [renderPdf_eq_append, pdfAppended_of_count cap src n (by omega) hcap]
  · intro j hj
    rw [List.getElem?_map, List.getElem?_range' _ _ hj, Nat.one_mul]
    rfl

/-- Witness for C6: a page count of 3 and source `pdf-file.pdf`, as in
the repository's test, against a container with pre-existing content; the
final conjunct evaluates the three generated images explicitly. -/
theorem renderPdf_pages_witness :
    (2 ≤ 3 ∧ (fun _ : PdfImg => some 3) (pdfTemplate "pdf-file.pdf" 1) = some 3)
    ∧ (renderPdf (fun _ => some 3) [DomNode.other "x"] "pdf-file.pdf" =
          [DomNode.other "x"] ++
            (List.range' 1 3).map (fun p => DomNode.img (pdfTemplate "pdf-file.pdf" p))
        ∧ ((List.range' 1 3).map
            (fun p => DomNode.img (pdfTemplate "pdf-file.pdf" p))).length = 3
        ∧ ∀ j : Nat, j < 3 →
            ((List.range' 1 3).map
              (fun p => DomNode.img (pdfTemplate "pdf-file.pdf" p)))[j]? =
              some (DomNode.img
                { src := "pdf-file.pdf", sourcePage := Nat.repr (1 + j),
                  className := "embedded-pdf page-" ++ Nat.repr (1 + j) }))
    ∧ renderPdf (fun _ => some 3) [] "pdf-file.pdf" =
        [DomNode.img ⟨"pdf-file.pdf", "1", "embedded-pdf page-1"⟩,
         DomNode.img ⟨"pdf-file.pdf", "2", "embedded-pdf page-2"⟩,
         DomNode.img ⟨"pdf-file.pdf", "3", "embedded-pdf page-3"⟩] :=
  ⟨⟨by omega, rfl⟩,
    renderPdf_pages (fun _ => some 3) [DomNode.other "x"] "pdf-file.pdf" 3
      (by omega) rfl,
    by decide⟩

/-- **C7**: when the page-count capability is absent (`undefined`) or
reports less than 2, `renderPdf` appends exactly the single page-1
element; the embedding is a total function, so no failure of its own is
raised. -/
theorem renderPdf_single (cap : PdfImg → Option Nat) (pre : List DomNode)
    (src : String)
    (h : cap (pdfTemplate src 1) = none
      ∨ ∃ n : Nat, n < 2 ∧ cap (pdfTemplate src 1) = some n) :
    renderPdf cap pre src = pre ++ [DomNode.img (pdfTemplate src 1)] := by
  rw [renderPdf_eq_append]
  rcases h with hc | ⟨n, hn, hc⟩
  · simp [pdfAppended, hc]
  · have h1 : n - 1 = 0 := by omega
    simp [pdfAppended, hc, h1]

/-- Witness for C7: an absent capability yields the single page-1 image;
the final conjunct also evaluates the count-1 case explicitly. -/
theorem renderPdf_single_witness :
    ((fun _ : PdfImg => (none : Option Nat)) (pdfTemplate "pdf-file.pdf" 1) = none
      ∨ ∃ n : Nat, n < 2 ∧
          (fun _ : PdfImg => (none : Option Nat)) (pdfTemplate "pdf-file.pdf" 1) = some n)
    ∧ renderPdf (fun _ => none) [] "pdf-file.pdf" =
        [] ++ [DomNode.img (pdfTemplate "pdf-file.pdf" 1)]
    ∧ renderPdf (fun _ => some 1) [] "pdf-file.pdf" =
        [DomNode.img ⟨"pdf-file.pdf", "1", "embedded-pdf page-1"⟩] :=
  ⟨Or.inl rfl, renderPdf_single (fun _ => none) [] "pdf-file.pdf" (Or.inl rfl),
    by decide⟩

/-- **C9**: every node `renderPdf` appends (the output beyond the
pre-existing children) is an image whose class attribute is exactly
`embedded-pdf page-` + its page number and whose `-ro-source-page` style
value is that same page number. -/
theorem renderPdf_img_attrs (cap : PdfImg → Option Nat) (pre : List DomNode)
    (src : String) (node : DomNode)
    (hmem : node ∈ (renderPdf cap pre src).drop pre.length) :
    ∃ p : Nat, node = DomNode.img
      { src := src, sourcePage := Nat.repr p,
        className := "embedded-pdf page-" ++ Nat.repr p } := by
  rw [renderPdf_eq_append, List.drop_left] at hmem
  cases hc : cap (pdfTemplate src 1) with
  | none =>
    simp [pdfAppended, hc] at hmem
    exact ⟨1, by rw [hmem]; rfl⟩
  | some n =>
    simp [pdfAppended, hc, List.mem_map] at hmem
    rcases hmem with h1 | ⟨p, _, hnode⟩
    · exact ⟨1, by rw [h1]; rfl⟩
    · exact ⟨p, by rw [← hnode]; rfl⟩

/-- Witness for C9: the page-2 image appended after pre-existing content
for a page count of 2. -/
theorem renderPdf_img_attrs_witness :
    DomNode.img ⟨"pdf-file.pdf", "2", "embedded-pdf page-2"⟩ ∈
      (renderPdf (fun _ => some 2) [DomNode.other "x"] "pdf-file.pdf").drop 1
    ∧ ∃ p : Nat,
        DomNode.img ⟨"pdf-file.pdf", "2", "embedded-pdf page-2"⟩ = DomNode.img
          { src := "pdf-file.pdf", sourcePage := Nat.repr p,
            className := "embedded-pdf page-" ++ Nat.repr p } :=
  ⟨by decide,
    renderPdf_img_attrs (fun _ => some 2) [DomNode.other "x"] "pdf-file.pdf"
      (DomNode.img ⟨"pdf-file.pdf", "2", "embedded-pdf page-2"⟩) (by decide)⟩

/-! ### OffscreenRenderer: data model

`renderOffscreen( selector, renderFunction )` manipulates one element's
attachment below its parent node.  The state is the parent's child list
(`List Elem`, children pairwise distinct in a real DOM); the geometry
capture and the d3 `width`/`height` attribute stamping touch only the
element itself and never the child list, so they are not part of this
state.  The host tree operations the function uses are modelled
explicitly:

* `nextSiblingOf children e` — the `nextSibling` property recorded
  before detachment (`none` models `null`, i.e. `e` was the last child);
* `children.erase e` — `parentNode.removeChild( e )`;
* `insertBefore children e next` — `parentNode.insertBefore( e, next )`,
  which inserts immediately before the reference node, or as last child
  when the reference is `null`.

The callback is arbitrary client code; with respect to this state it can
observe the child list, invoke the run-attached function any number of
times with tasks of its choice (each task observes the child list and
returns a value or raises an error, modelled by `Except`), and finally
return or raise.  `Prog` is exactly that interaction language, and
`runProg` executes it against the state. -/

section Offscreen

variable {Elem Err Val : Type} [DecidableEq Elem]

/-- Insert `e` immediately before the first occurrence of the reference
element `n` (DOM nodes are distinct, so the first occurrence is the
node itself).  The reference is present whenever this is called under the
theorems' hypotheses; an absent reference appends (unreachable here — the
DOM would raise). -/
def insertBeforeRef : List Elem → Elem → Elem → List Elem
  | [], e, _ => [e]
  | x :: rest, e, n => if x = n then e :: x :: rest else x :: insertBeforeRef rest e n

/-- `parentNode.insertBefore( e, next )`: before the reference node, or
as last child when the reference is `null`. -/
def insertBefore (children : List Elem) (e : Elem) : Option Elem → List Elem
  | none => children ++ [e]
  | some n => insertBeforeRef children e n

/-- The `nextSibling` property of `e` inside `children`. -/
def nextSiblingOf : List Elem → Elem → Option Elem
  | [], _ => none
  | x :: rest, e => if x = e then rest.head? else nextSiblingOf rest e

/-- The interaction language of `renderFunction` with the attachment
state: finish with a result (`Except.error` models raising), or invoke
the run-attached function on a task and continue from its outcome and the
state it leaves behind.  A callback that lets an inner error escape is the
continuation returning `Prog.done (Except.error …)`; one that catches it
continues differently — both are instances of `k`. -/
inductive Prog (Elem Err Val : Type) : Type where
  | done : Except Err Unit → Prog Elem Err Val
  | call : (List Elem → Except Err Val) →
      (Except Err Val → List Elem → Prog Elem Err Val) → Prog Elem Err Val

/-- The run-attached function handed to `renderFunction`:
`parentNode.insertBefore( svgElement, nextSibling )`, then
`try { return whenRenderedTask(); } finally { parentNode.removeChild( svgElement ); }` —
the task runs against the re-attached state, its outcome (value or error)
is passed through, and the element is removed again on both paths. -/
def runAttached (e : Elem) (next : Option Elem) (s : List Elem)
    (whenRenderedTask : List Elem → Except Err Val) : Except Err Val × List Elem :=
  let attachedState := insertBefore s e next
  (whenRenderedTask attachedState, attachedState.erase e)

/-- Execute a callback program against the detached state, threading the
state through every run-attached invocation. -/
def runProg (e : Elem) (next : Option Elem) :
    Prog Elem Err Val → List Elem → Except Err Unit × List Elem
  | Prog.done r, s => (r, s)
  | Prog.call task k, s =>
    let step := runAttached e next s task
    runProg e next (k step.1 step.2) step.2

/-- `renderOffscreen`, at the level of the parent's child list: record
`nextSibling`, remove the element, run the callback (its uses of the
run-attached function included), and
`finally { parentNode.insertBefore( svgElement, nextSibling ); }` —
re-insert at the recorded position whether the callback returned or
raised, letting its outcome through unchanged. -/
def renderOffscreen (e : Elem) (children : List Elem)
    (renderFunction : List Elem → Prog Elem Err Val) :
    Except Err Unit × List Elem :=
  let next := nextSiblingOf children e
  let detached := children.erase e
  let outcome := runProg e next (renderFunction detached) detached
  (outcome.1, insertBefore outcome.2 e next)

/-! ### OffscreenRenderer: lemmas -/

/-- The recorded next sibling is a child of the parent. -/
theorem nextSiblingOf_mem (e n : Elem) :
    ∀ l : List Elem, nextSiblingOf l e = some n → n ∈ l := by
  intro l
  induction l with
  | nil => intro h; simp [nextSiblingOf] at h
  | cons x rest ih =>
    intro h
    rw [nextSiblingOf] at h
    by_cases hxe : x = e
    · rw [if_pos hxe] at h
      exact List.mem_cons_of_mem x (List.mem_of_mem_head? h)
    · rw [if_neg hxe] at h
      exact List.mem_cons_of_mem x (ih h)

/-- Removing a freshly inserted element (not previously a child) restores
the child list exactly, whatever the reference element. -/
theorem erase_insertBeforeRef (e n : Elem) :
    ∀ s : List Elem, e ∉ s → (insertBeforeRef s e n).erase e = s := by
  intro s
  induction s with
  | nil => intro _; simp [insertBeforeRef]
  | cons x rest ih =>
    intro hs
    have hxe : x ≠ e := fun hx => hs (hx ▸ List.mem_cons_self x rest)
    rw [insertBeforeRef]
    by_cases hxn : x = n
    · rw [if_pos hxn, List.erase_cons_head]
    · rw [if_neg hxn, List.erase_cons_tail (by simp [hxe]),
        ih (fun hm => hs (List.mem_cons_of_mem x hm))]

/-- Removing a freshly inserted element restores the child list exactly:
the `finally`-removal inside the run-attached function undoes its own
insertion. -/
theorem erase_insertBefore (e : Elem) (s : List Elem) (next : Option Elem)
    (hs : e ∉ s) : (insertBefore s e next).erase e = s := by
  cases next with
  | none =>
    rw [insertBefore, List.erase_append_right _ hs, List.erase_cons_head,
      List.append_nil]
  | some n => exact erase_insertBeforeRef e n s hs

/-- Re-inserting a removed child before its recorded next sibling
restores the original child list: the core restoration argument, used by
both the outer `finally` and each run-attached invocation. -/
theorem insertBefore_restore (e : Elem) :
    ∀ children : List Elem, e ∈ children → children.Nodup →
      insertBefore (children.erase e) e (nextSiblingOf children e) = children := by
  intro children
  induction children with
  | nil => intro he; simp at he
  | cons c rest ih =>
    intro he hnd
    have hnc := List.nodup_cons.mp hnd
    by_cases hce : c = e
    · subst hce
      rw [List.erase_cons_head, nextSiblingOf, if_pos rfl]
      cases rest with
      | nil => rfl
      | cons r rs => simp [insertBefore, insertBeforeRef]
    · have herest : e ∈ rest := by
        rcases List.mem_cons.mp he with h | h
        · exact absurd h.symm hce
        · exact h
      rw [List.erase_cons_tail (by simp [hce]), nextSiblingOf,
        if_neg (fun h => hce h)]
      cases hns : nextSiblingOf rest e with
      | none =>
        have ihr := ih herest hnc.2
        rw [hns, insertBefore] at ihr
        rw [insertBefore, List.cons_append, ihr]
      | some n =>
        have ihr := ih herest hnc.2
        rw [hns, insertBefore] at ihr
        have hcn : c ≠ n := fun hc =>
          hnc.1 (hc ▸ nextSiblingOf_mem e n rest hns)
        rw [insertBefore, insertBeforeRef, if_neg hcn, ihr]

/-- The callback cannot change the detached state: every run-attached
step re-inserts and then removes the element, leaving the child list as
it was. -/
theorem runProg_snd (e : Elem) (next : Option Elem)
    (prog : Prog Elem Err Val) :
    ∀ s : List Elem, e ∉ s → (runProg e next prog s).2 = s := by
  induction prog with
  | done r => intro s _; rfl
  | call task k ih =>
    intro s hs
    have hstep : (runAttached e next s task).2 = s := erase_insertBefore e s next hs
    simp only [runProg]
    rw [hstep]
    exact ih _ s s hs

/-! ### OffscreenRenderer: claim theorems -/

/-- **C1**: `renderOffscreen` removes the element before invoking the
callback (the callback observes `children.erase e`, which no longer
contains `e`); after the callback finishes — normally or with an error,
and whatever run-attached invocations it made — the element is
re-inserted under its original parent before its originally recorded next
sibling, restoring the child list exactly; and the callback's outcome,
errors included, is passed through unchanged after that restoration. -/
theorem renderOffscreen_restores (e : Elem) (children : List Elem)
    (renderFunction : List Elem → Prog Elem Err Val)
    (he : e ∈ children) (hnd : children.Nodup) :
    e ∉ children.erase e
    ∧ (renderOffscreen e children renderFunction).2 = children
    ∧ (renderOffscreen e children renderFunction).1 =
        (runProg e (nextSiblingOf children e) (renderFunction (children.erase e))
          (children.erase e)).1 := by
  have hnotmem : e ∉ children.erase e := by
    intro hm
    exact ((List.Nodup.mem_erase_iff hnd).mp hm).1 rfl
  refine ⟨hnotmem, ?_, rfl⟩
  show insertBefore
      (runProg e (nextSiblingOf children e) (renderFunction (children.erase e))
        (children.erase e)).2 e (nextSiblingOf children e) = children
  rw [runProg_snd e (nextSiblingOf children e)
      (renderFunction (children.erase e)) (children.erase e) hnotmem,
    insertBefore_restore e children he hnd]

/-- Witness for C1: element `20` between siblings `10` and `30`; the
callback invokes the run-attached function once and then raises error
`7`; the error comes out and the child list is `[10, 20, 30]` again.  The
last conjunct evaluates the call explicitly. -/
theorem renderOffscreen_restores_witness :
    (20 : Nat) ∉ ([10, 20, 30] : List Nat).erase 20
    ∧ (renderOffscreen 20 [10, 20, 30]
        (fun _ => Prog.call (fun s => Except.ok s.length)
          (fun _ _ => Prog.done (Except.error (7 : Nat))))).2 = [10, 20, 30]
    ∧ (renderOffscreen 20 [10, 20, 30]
        (fun _ => Prog.call (fun s => Except.ok s.length)
          (fun _ _ => Prog.done (Except.error (7 : Nat))))).1 =
        (runProg 20 (nextSiblingOf [10, 20, 30] 20)
          ((fun _ => Prog.call (fun s => Except.ok s.length)
            (fun _ _ => Prog.done (Except.error (7 : Nat))))
              (([10, 20, 30] : List Nat).erase 20))
          (([10, 20, 30] : List Nat).erase 20)).1
    ∧ renderOffscreen 20 [10, 20, 30]
        (fun _ => Prog.call (fun s => Except.ok s.length)
          (fun _ _ => Prog.done (Except.error (7 : Nat)))) =
        (Except.error 7, [10, 20, 30]) := by
  have h := renderOffscreen_restores 20 [10, 20, 30]
    (fun _ => Prog.call (fun s => Except.ok s.length)
      (fun _ _ => Prog.done (Except.error (7 : Nat))))
    (by decide) (by decide)
  exact ⟨h.1, h.2.1, h.2.2, rfl⟩

/-- **C2**: each invocation of the run-attached function from the state
the callback runs in (`children.erase e`, as every interleaving of
invocations preserves it) re-inserts the element at its original
position — the inner task observes exactly the original child list —
returns the task's outcome to its caller, value and error alike, and
removes the element again before returning on both paths. -/
theorem runAttached_roundtrip (e : Elem) (children : List Elem)
    (task : List Elem → Except Err Val)
    (he : e ∈ children) (hnd : children.Nodup) :
    runAttached e (nextSiblingOf children e) (children.erase e) task =
      (task children, children.erase e)
    ∧ e ∉ children.erase e := by
  have hnotmem : e ∉ children.erase e := by
    intro hm
    exact ((List.Nodup.mem_erase_iff hnd).mp hm).1 rfl
  constructor
  · show (task (insertBefore (children.erase e) e (nextSiblingOf children e)),
        (insertBefore (children.erase e) e (nextSiblingOf children e)).erase e) =
      (task children, children.erase e)
    rw [insertBefore_restore e children he hnd]
  · exact hnotmem

/-- Witness for C2: element `20` between `10` and `30`, task returning
the length of the child list it observes — it sees all three children
(`Except.ok 3`), and the element is detached again afterwards. -/
theorem runAttached_roundtrip_witness :
    runAttached 20 (nextSiblingOf [10, 20, 30] 20)
        (([10, 20, 30] : List Nat).erase 20)
        (fun s => (Except.ok s.length : Except Nat Nat)) =
      ((fun s => (Except.ok s.length : Except Nat Nat)) [10, 20, 30],
        ([10, 20, 30] : List Nat).erase 20)
    ∧ (20 : Nat) ∉ ([10, 20, 30] : List Nat).erase 20
    ∧ runAttached 20 (nextSiblingOf [10, 20, 30] 20)
        (([10, 20, 30] : List Nat).erase 20)
        (fun s => (Except.ok s.length : Except Nat Nat)) =
      (Except.ok 3, [10, 30]) := by
  have h := runAttached_roundtrip 20 [10, 20, 30]
    (fun s => (Except.ok s.length : Except Nat Nat)) (by decide) (by decide)
  exact ⟨h.1, h.2, rfl⟩

end Offscreen

end PdfReactorUtils
